import Mathlib

/-!
Verification of the rule-list normalization and merge engine (src/main.py).

The Python program is shallowly embedded: every definition below is a direct
translation of a function or code block of `src/main.py` (the source line
numbers are given in the doc comments).  String processing is modelled on
`List Char` so that all definitions are executable by the kernel; machine
integers do not occur (the only arithmetic is on IP address values, which
Python holds as unbounded ints as well).
-/

namespace ToosBox

/-! ## Character and string utilities (models of the Python `str` methods used) -/

/-- The apostrophe character, used by `item.strip("'")` in the source. -/
def quoteChar : Char := Char.ofNat 39

/-- Python `str.split(sep)` restricted to a single-character separator:
splits on every occurrence, keeping empty pieces (so `"::"` splits into
three empty strings on `':'`). -/
def splitCh (sep : Char) : List Char → List (List Char)
  | [] => [[]]
  | c :: cs =>
    let rest := splitCh sep cs
    if c = sep then [] :: rest
    else
      match rest with
      | [] => [[c]]
      | p :: ps => (c :: p) :: ps

/-- Split at the first occurrence of `sep`, as Python `s.split(sep, 1)`
for a one-character separator; returns the two sides when the separator occurs. -/
def splitFirst (sep : Char) : List Char → Option (List Char × List Char)
  | [] => none
  | c :: cs =>
    if c = sep then some ([], cs)
    else
      match splitFirst sep cs with
      | none => none
      | some (l, r) => some (c :: l, r)

/-- Whitespace characters recognised by Python `str.strip()` / `str.split()`
(ASCII subset; the rule lists are ASCII). -/
def isPySpace (c : Char) : Bool :=
  c = ' ' || c = Char.ofNat 9 || c = Char.ofNat 10 || c = Char.ofNat 13 ||
  c = Char.ofNat 11 || c = Char.ofNat 12

/-- Python `str.strip()` on character lists. -/
def stripChars (cs : List Char) : List Char :=
  ((cs.dropWhile isPySpace).reverse.dropWhile isPySpace).reverse

/-- Python `str.strip()` (`address.strip()`, `pattern.strip()` in the source). -/
def pyStrip (s : String) : String := String.mk (stripChars s.data)

/-- Python `str.strip(chars)` for a set of characters given as a list. -/
def stripSet (set : List Char) (cs : List Char) : List Char :=
  ((cs.dropWhile (set.contains ·)).reverse.dropWhile (set.contains ·)).reverse

/-- `item.strip("'")` from line 101 of the source. -/
def stripQuotes (s : String) : String := String.mk (stripSet [quoteChar] s.data)

/-- `address.lstrip('+.')` from line 108 of the source: removes every leading
`+` or `.` character. -/
def lstripPlusDot (s : String) : String :=
  String.mk (s.data.dropWhile (fun c => c = '+' || c = '.'))

/-- Membership of a single character in a string (`'#' in pattern`,
`',' not in item` in the source). -/
def strHasChar (c : Char) (s : String) : Bool := s.data.contains c

/-- Python `str.startswith` for a one-character prefix
(`address.startswith('+')` in the source). -/
def startsWithCh (c : Char) (s : String) : Bool :=
  match s.data with
  | [] => false
  | d :: _ => d = c

/-- Python `str.endswith` (`link.endswith('.yaml')` in the source). -/
def pyEndsWith (suffix s : String) : Bool :=
  suffix.data.reverse.isPrefixOf s.data.reverse

/-- Index of the first occurrence of `needle` in `hay`, if any
(used to model `re.search` / the `in` substring test). -/
def findSub (needle : List Char) : List Char → Option Nat
  | [] => if needle = [] then some 0 else none
  | c :: cs =>
    if needle.isPrefixOf (c :: cs) then some 0
    else
      match findSub needle cs with
      | none => none
      | some i => some (i + 1)

/-- Python substring test `needle in hay`. -/
def hasSub (needle hay : String) : Bool := (findSub needle.data hay.data).isSome

/-- The text after the first occurrence of `needle` in `hay`
(the capture of `re.search(f'{keyword},(.*)', component)`; the components
scanned by the source contain no newline, so `.*` reaches the end). -/
def afterSub (needle hay : List Char) : Option (List Char) :=
  match findSub needle hay with
  | none => none
  | some i => some (hay.drop (i + needle.length))

/-- Python `str.splitlines()` restricted to `\n` terminators
(`yaml_data.splitlines()` in the source); `""` yields `[]`. -/
def splitLines (s : String) : List (List Char) :=
  match s.data with
  | [] => []
  | cs => splitCh (Char.ofNat 10) cs

/-- Python `str.split()` with no argument: split on runs of whitespace,
dropping empty pieces (`line_content.split()` in the source). -/
def splitWs (cs : List Char) : List String :=
  ((splitCh ' ' (cs.map fun c => if isPySpace c then ' ' else c)).filter
    (· ≠ [])).map String.mk

/-- Python `str.replace(old, new)`: left-to-right, non-overlapping, all
occurrences.  Structured with explicit fuel so that the kernel can evaluate
it; `replaceAll` instantiates the fuel with the length of the text, which is
always sufficient because each step consumes at least one character. -/
def replaceAux (needle repl : List Char) : Nat → List Char → List Char
  | 0, l => l
  | Nat.succ fuel, l =>
    match l with
    | [] => []
    | c :: cs =>
      if needle ≠ [] ∧ needle.isPrefixOf (c :: cs) then
        repl ++ replaceAux needle repl fuel ((c :: cs).drop needle.length)
      else c :: replaceAux needle repl fuel cs

/-- Python `str.replace(old, new)` (used for the final
`result_rules_str.replace('\\\\', '\\')` at line 178). -/
def replaceAll (needle repl s : String) : String :=
  String.mk (replaceAux needle.data repl.data s.data.length s.data)

/-! ## The string order

Python compares strings lexicographically by code point.  The comparator is
defined from scratch (rather than through `String.le`) so that the kernel can
evaluate it on concrete inputs. -/

/-- Strict lexicographic comparison of character lists by code point. -/
def ltB : List Char → List Char → Bool
  | [], [] => false
  | [], _ :: _ => true
  | _ :: _, [] => false
  | a :: as, b :: bs =>
    if a.toNat < b.toNat then true
    else if a.toNat = b.toNat then ltB as bs
    else false

/-- Python `s <= t` on strings: not `t < s`. -/
def sLe (a b : String) : Prop := ltB b.data a.data = false

instance : DecidableRel sLe := fun a b =>
  inferInstanceAs (Decidable (ltB b.data a.data = false))

/-! ## First-occurrence deduplication

`DataFrame.drop_duplicates()` (line 146) and, at the level of value content,
`list(set(...))` (line 166) keep one copy of every distinct element.
`drop_duplicates` keeps the first occurrence, which `dedupF` models exactly;
for `list(set(...))` the Python iteration order is hash-dependent, so
`dedupF` is a content-faithful model whose order is only used after the
canonical sort has made it irrelevant. -/

/-- Worker for `dedupF`: `seen` records the elements already emitted. -/
def dedupGo {α : Type} [DecidableEq α] : List α → List α → List α
  | _, [] => []
  | seen, a :: as =>
    if a ∈ seen then dedupGo seen as else a :: dedupGo (a :: seen) as

/-- Keep the first occurrence of every element, dropping later duplicates. -/
def dedupF {α : Type} [DecidableEq α] (l : List α) : List α := dedupGo [] l

/-! ## The synonym table and the row model -/

/-- `MAP_DICT` (lines 11–30), kept as an association list in the source's
insertion order (Python dicts iterate in insertion order, which the
AND-clause scan at lines 57–62 depends on). -/
def MAP_LIST : List (String × String) :=
  [("DOMAIN-SUFFIX", "domain_suffix"),
   ("HOST-SUFFIX", "domain_suffix"),
   ("DOMAIN", "domain"),
   ("HOST", "domain"),
   ("host", "domain"),
   ("DOMAIN-KEYWORD", "domain_keyword"),
   ("HOST-KEYWORD", "domain_keyword"),
   ("host-keyword", "domain_keyword"),
   ("IP-CIDR", "ip_cidr"),
   ("ip-cidr", "ip_cidr"),
   ("IP-CIDR6", "ip_cidr"),
   ("IP6-CIDR", "ip_cidr"),
   ("SRC-IP-CIDR", "source_ip_cidr"),
   ("GEOIP", "geoip"),
   ("DST-PORT", "port"),
   ("SRC-PORT", "source_port"),
   ("URL-REGEX", "domain_regex"),
   ("DOMAIN-REGEX", "domain_regex")]

/-- The raw keywords (`MAP_DICT.keys()`). -/
def mapKeys : List String := MAP_LIST.map Prod.fst

/-- `MAP_DICT` lookup as performed by `df['pattern'].replace(MAP_DICT)`
(line 147): keys are replaced by their image, other values are untouched. -/
def mapKind (p : String) : String :=
  match MAP_LIST.lookup p with
  | some c => c
  | none => p

/-- The nine canonical pattern kinds (the value set of `MAP_DICT`). -/
def canonicalKinds : List String :=
  ["domain_suffix", "domain", "domain_keyword", "ip_cidr", "source_ip_cidr",
   "geoip", "port", "source_port", "domain_regex"]

/-- One row of the tabular frame: the `pattern` and `address` columns plus the
extra columns (`other`, `other2`, `other3`), `none` standing for pandas `NaN`.
`drop_duplicates()` compares whole rows, so the extra columns participate in
row equality. -/
structure Row where
  pattern : String
  address : String
  extra : List (Option String)
deriving DecidableEq, Repr

/-! ## JSON values, the canonical sorter (`sort_dict`, lines 124–132) and the
emitter (`json.dumps(..., ensure_ascii=False, indent=2)` plus the escape
collapse, lines 177–178) -/

/-- The JSON document values manipulated by the program: numbers (only the
version `1` occurs), strings, arrays and objects (association lists in
insertion order, as Python dicts). -/
inductive JVal where
  | num (n : Nat)
  | str (s : String)
  | arr (xs : List JVal)
  | obj (kvs : List (String × JVal))
deriving Repr

/-- Whether a value is a dict (`isinstance(elem, dict)`). -/
def isObjB : JVal → Bool
  | .obj _ => true
  | _ => false

/-- Sort a string list (Python `sorted` on strings: lexicographic by code
point, the order `sLe`; Python's sort is stable, as is insertion sort). -/
def sortStr (l : List String) : List String := l.insertionSort sLe

/-- `sorted(d.keys())[0]`, the sort key used for arrays of dicts in
`sort_dict`; the dicts built by this program are never empty, `""` is a
junk value for the impossible case (where Python would raise). -/
def minKeyOf : JVal → String
  | .obj kvs => (sortStr (kvs.map Prod.fst)).headD ""
  | _ => ""

/-- The key order of `sorted(obj.items())` on a dict: Python compares the
`(key, value)` tuples, but dict keys are distinct so only the key is ever
compared. -/
def pairLe (a b : String × JVal) : Prop := sLe a.1 b.1

instance : DecidableRel pairLe := fun a b =>
  inferInstanceAs (Decidable (sLe a.1 b.1))

/-- `sorted(obj.items())` on a dict. -/
def sortPairs (kvs : List (String × JVal)) : List (String × JVal) :=
  kvs.insertionSort pairLe

/-- The comparison Python's `sorted` applies inside a scalar array.  The
arrays sorted through this branch by the program are arrays of strings;
on other (heterogeneous) arrays Python would raise `TypeError`, and the
catch-all rank keeps the Lean model total there. -/
def jle (a b : JVal) : Prop :=
  match a, b with
  | .str x, .str y => sLe x y
  | .num x, .num y => x ≤ y
  | .str _, _ => True
  | _, .str _ => False
  | _, _ => True

instance : DecidableRel jle := by
  intro a b
  cases a <;> cases b <;> simp only [jle] <;> infer_instance

/-- The order of `sorted(..., key=lambda d: sorted(d.keys())[0])` for arrays
of dicts. -/
def minKeyLe (a b : JVal) : Prop := sLe (minKeyOf a) (minKeyOf b)

instance : DecidableRel minKeyLe := fun a b =>
  inferInstanceAs (Decidable (sLe (minKeyOf a) (minKeyOf b)))

/-- `sorted(..., key=lambda d: sorted(d.keys())[0])` for arrays of dicts. -/
def sortByMinKey (xs : List JVal) : List JVal :=
  xs.insertionSort minKeyLe

mutual

/-- `sort_dict` (lines 124–132): recursively sort object keys; sort an array
whose elements are all dicts by each element's smallest key; sort any other
array as scalars; leave scalars unchanged.  (`all` of an empty list is `True`
in Python, so an empty array takes the all-dicts branch; both branches send
`[]` to `[]`.)  The source sorts the items and then recurses into the values
(`{k: sort_dict(v) for k, v in sorted(obj.items())}`); since the key sort
never touches values and the recursion never touches keys, recursing first
and sorting second — as written here so that the recursion is structural —
produces the identical dict. -/
def sortDoc : JVal → JVal
  | .num n => .num n
  | .str s => .str s
  | .arr xs =>
    .arr (if xs.all isObjB then sortByMinKey (sortDocs xs)
          else (sortDocs xs).insertionSort jle)
  | .obj kvs => .obj (sortPairs (sortKVs kvs))

/-- `sort_dict` mapped over the elements of an array. -/
def sortDocs : List JVal → List JVal
  | [] => []
  | x :: xs => sortDoc x :: sortDocs xs

/-- `sort_dict` mapped over the values of a dict. -/
def sortKVs : List (String × JVal) → List (String × JVal)
  | [] => []
  | (k, v) :: rest => (k, sortDoc v) :: sortKVs rest

end

/-- Two-character hex spelling used by the `\u00XX` escapes. -/
def hexByte (n : Nat) : List Char :=
  [(Nat.toDigits 16 (n / 16 % 16)).headD '0', (Nat.toDigits 16 (n % 16)).headD '0']

/-- `json.dumps` string escaping with `ensure_ascii=False`: backslash, double
quote and the control characters are escaped, everything else is emitted
as-is. -/
def jsonEscapeChar (c : Char) : List Char :=
  if c = '\\' then ['\\', '\\']
  else if c = '"' then ['\\', '"']
  else if c = Char.ofNat 10 then ['\\', 'n']
  else if c = Char.ofNat 9 then ['\\', 't']
  else if c = Char.ofNat 13 then ['\\', 'r']
  else if c = Char.ofNat 8 then ['\\', 'b']
  else if c = Char.ofNat 12 then ['\\', 'f']
  else if c.toNat < 32 then ['\\', 'u', '0', '0'] ++ hexByte c.toNat
  else [c]

/-- Escape a whole string and wrap it in double quotes. -/
def jsonQuote (s : String) : String :=
  String.mk ('"' :: s.data.flatMap jsonEscapeChar ++ ['"'])

/-- `indent`-many spaces. -/
def pad (n : Nat) : String := String.mk (List.replicate n ' ')

mutual

/-- `json.dumps(v, ensure_ascii=False, indent=2)` at nesting depth `ind`
(measured in spaces): objects and arrays break across lines with two extra
spaces per level, empty containers print inline, items are separated by
`,\n` and object keys by `: `. -/
def dumps (ind : Nat) : JVal → String
  | .num n => toString n
  | .str s => jsonQuote s
  | .arr [] => "[]"
  | .arr (x :: xs) =>
    "[\n" ++ String.intercalate ",\n" (dumpsArr (ind + 2) (x :: xs)) ++
      "\n" ++ pad ind ++ "]"
  | .obj [] => "\x7b\x7d"
  | .obj (kv :: kvs) =>
    "\x7b\n" ++ String.intercalate ",\n" (dumpsObj (ind + 2) (kv :: kvs)) ++
      "\n" ++ pad ind ++ "\x7d"

/-- The rendered elements of an array, each on its own indented line. -/
def dumpsArr (ind : Nat) : List JVal → List String
  | [] => []
  | x :: xs => (pad ind ++ dumps ind x) :: dumpsArr ind xs

/-- The rendered `"key": value` items of an object. -/
def dumpsObj (ind : Nat) : List (String × JVal) → List String
  | [] => []
  | (k, v) :: kvs => (pad ind ++ jsonQuote k ++ ": " ++ dumps ind v) :: dumpsObj ind kvs

end

/-- Lines 177–178: canonically sort the document, serialize it, and collapse
doubled backslash escapes (`result_rules_str.replace('\\\\', '\\')`). -/
def emitJson (v : JVal) : String :=
  replaceAll "\\\\" "\\" (dumps 0 (sortDoc v))

/-! ## The `ipaddress` model (`is_ipv4_or_ipv6`, lines 75–84)

The source calls `ipaddress.IPv4Network(address)` and, on failure,
`ipaddress.IPv6Network(address)` (both with the default `strict=True`).
The definitions below transliterate CPython's `_ip_int_from_string` /
`_parse_octet` / `_parse_hextet` for the textual forms `addr` and
`addr/prefixlen` (decimal prefix).  The additional dotted netmask/hostmask
spelling of the prefix accepted by the library (`1.0.0.0/255.0.0.0`) is not
modelled; no claim concerns it. -/

/-- Decimal value of a digit string (assumes digits only). -/
def decVal (cs : List Char) : Nat :=
  cs.foldl (fun n c => n * 10 + (c.toNat - 48)) 0

/-- CPython `_parse_octet`: digits only, at most 3 of them, no leading zero
unless the octet is exactly `0`, value at most 255. -/
def parseOctet (cs : List Char) : Option Nat :=
  if cs ≠ [] ∧ cs.all Char.isDigit ∧ cs.length ≤ 3 ∧
      (cs.length = 1 ∨ cs.headD '0' ≠ '0') then
    let n := decVal cs
    if n ≤ 255 then some n else none
  else none

/-- CPython IPv4 `_ip_int_from_string`: exactly four octets separated by dots. -/
def parseIPv4Addr (cs : List Char) : Option Nat :=
  match splitCh '.' cs with
  | [a, b, c, d] =>
    match parseOctet a, parseOctet b, parseOctet c, parseOctet d with
    | some a', some b', some c', some d' =>
      some (((a' * 256 + b') * 256 + c') * 256 + d')
    | _, _, _, _ => none
  | _ => none

/-- CPython `_prefix_from_prefix_string`: decimal digits only, value at most
`maxLen`. -/
def parsePrefixLen (cs : List Char) (maxLen : Nat) : Option Nat :=
  if cs ≠ [] ∧ cs.all Char.isDigit then
    let n := decVal cs
    if n ≤ maxLen then some n else none
  else none

/-- Hexadecimal digit test for IPv6 hextets. -/
def isHexDigitCh (c : Char) : Bool :=
  c.isDigit || ('a' ≤ c && c ≤ 'f') || ('A' ≤ c && c ≤ 'F')

/-- Value of one hexadecimal digit. -/
def hexDigitVal (c : Char) : Nat :=
  if c.isDigit then c.toNat - 48
  else if 'a' ≤ c then c.toNat - 87
  else c.toNat - 55

/-- CPython `_parse_hextet`: hex digits only, at most four of them. -/
def parseHextet (cs : List Char) : Option Nat :=
  if cs ≠ [] ∧ cs.all isHexDigitCh ∧ cs.length ≤ 4 then
    some (cs.foldl (fun n c => n * 16 + hexDigitVal c) 0)
  else none

/-- Combine 16-bit hextet values most-significant first. -/
def hextetsVal (hs : List Nat) : Nat :=
  hs.foldl (fun acc h => acc * 65536 + h) 0

/-- CPython IPv6 `_ip_int_from_string`: colon-separated hextets with at most
one `::` compression (interior empty part), optional embedded IPv4 tail,
leading/trailing empty parts only as part of a leading/trailing `::`. -/
def parseIPv6Addr (cs : List Char) : Option Nat :=
  if cs = [] then none else
  let parts0 := splitCh ':' cs
  if parts0.length < 3 then none else
  let lastPart := parts0.getLastD []
  let partsOpt : Option (List (List Char)) :=
    if lastPart.contains '.' then
      match parseIPv4Addr lastPart with
      | none => none
      | some v4 =>
        some (parts0.dropLast ++
          [Nat.toDigits 16 (v4 / 65536 % 65536), Nat.toDigits 16 (v4 % 65536)])
    else some parts0
  match partsOpt with
  | none => none
  | some parts =>
    let n := parts.length
    if 9 < n then none else
    let emptyIdxs := (List.range n).filter
      (fun i => 1 ≤ i ∧ i + 1 < n ∧ parts.getD i [] = [])
    match emptyIdxs with
    | [] =>
      if n ≠ 8 then none
      else if parts.headD [] = [] then none
      else if parts.getLastD [] = [] then none
      else
        match List.mapM parseHextet parts with
        | none => none
        | some hs => some (hextetsVal hs)
    | [i] =>
      let hiOpt : Option Nat :=
        if parts.headD [] = [] then (if i - 1 = 0 then some 0 else none)
        else some i
      let loOpt : Option Nat :=
        if parts.getLastD [] = [] then
          (if n - i - 2 = 0 then some 0 else none)
        else some (n - i - 1)
      match hiOpt, loOpt with
      | some hi, some lo =>
        if 8 ≤ hi + lo then none else
        let skipped := 8 - (hi + lo)
        match List.mapM parseHextet (parts.take hi),
              List.mapM parseHextet (parts.drop (n - lo)) with
        | some hhi, some hlo =>
          some (hextetsVal hhi * 2 ^ (16 * (skipped + lo)) + hextetsVal hlo)
        | _, _ => none
      | _, _ => none
    | _ :: _ :: _ => none

/-- `ipaddress.IPv4Network(address)` (strict): a bare address gets an implicit
`/32`; with a decimal prefix the host bits must be zero. -/
def ipv4NetworkOk (s : String) : Bool :=
  match splitCh '/' s.data with
  | [a] => (parseIPv4Addr a).isSome
  | [a, p] =>
    match parseIPv4Addr a, parsePrefixLen p 32 with
    | some v, some pl => decide (v % 2 ^ (32 - pl) = 0)
    | _, _ => false
  | _ => false

/-- `ipaddress.IPv6Network(address)` (strict): implicit `/128` without a
prefix; with a decimal prefix the host bits must be zero. -/
def ipv6NetworkOk (s : String) : Bool :=
  match splitCh '/' s.data with
  | [a] => (parseIPv6Addr a).isSome
  | [a, p] =>
    match parseIPv6Addr a, parsePrefixLen p 128 with
    | some v, some pl => decide (v % 2 ^ (128 - pl) = 0)
    | _, _ => false
  | _ => false

/-- `is_ipv4_or_ipv6` (lines 75–84): try the strict IPv4-network parse, then
the strict IPv6-network parse; `none` models Python's `None`. -/
def is_ipv4_or_ipv6 (address : String) : Option String :=
  if ipv4NetworkOk address then some "ipv4"
  else if ipv6NetworkOk address then some "ipv6"
  else none

/-! ## The key-value / line-oriented grammar (`parse_and_convert_to_dataframe`,
lines 87–121) -/

/-- The body of the `for item in items` loop (lines 100–115): classify one
entry and build its row (`other` column is `None`). -/
def rowOfItem (item : String) : Row :=
  let address0 := stripQuotes item
  let pa : String × String :=
    if ¬ strHasChar ',' item then
      if (is_ipv4_or_ipv6 item).isSome then ("IP-CIDR", address0)
      else if startsWithCh '+' address0 || startsWithCh '.' address0 then
        ("DOMAIN-SUFFIX", lstripPlusDot address0)
      else ("DOMAIN", address0)
    else
      match splitFirst ',' item.data with
      | some (l, r) => (String.mk l, String.mk r)
      | none => ("", "")
  let pattern := pa.1
  let address :=
    if pattern = "IP-CIDR" ∧ hasSub "no-resolve" pa.2 then
      match splitFirst ',' pa.2.data with
      | some (l, _) => String.mk l
      | none => pa.2
    else pa.2
  ⟨pyStrip pattern, pyStrip address, [none]⟩

/-- The decoded YAML document as the source observes it (line 94–99): either a
bare string, or a mapping that is queried only for its `payload` key via
`yaml_data.get('payload', [])`.  A mapping that lacks the key is modelled by
`payload := none`; the payload entries are the sequence of entry strings. -/
inductive YamlDoc where
  | str (s : String)
  | mapping (payload : Option (List String))
deriving Repr

/-- Lines 93–116: build the rows from a decoded YAML document.  On a mapping,
the `payload` sequence (default `[]`) is used; on a bare string only the first
line is consulted, split on whitespace — and `lines[0]` raises `IndexError`
when the string is empty, which the surrounding `try` turns into the
structured-list fallback (modelled by the `Except.error`). -/
def yamlRows (d : YamlDoc) : Except String (List Row × List JVal) :=
  match d with
  | .mapping payload => .ok (((payload.getD []).map rowOfItem), [])
  | .str s =>
    match splitLines s with
    | [] => .error "IndexError"
    | l0 :: _ => .ok ((splitWs l0).map rowOfItem, [])

/-! ## The structured-list grammar (`read_list_from_url`, lines 40–72) -/

/-- One record of the 5-column frame produced by
`pd.read_csv(url, header=None, names=['pattern','address','other','other2','other3'])`;
`none` is a missing field (`NaN`). -/
structure CsvRow where
  pattern : String
  address : String
  other : Option String
  other2 : Option String
  other3 : Option String
deriving DecidableEq, Repr

/-- `",".join(row.values.astype(str))` (line 54): all five fields joined with
commas, `NaN` printing as `nan`. -/
def joinRow (r : CsvRow) : String :=
  r.pattern ++ "," ++ r.address ++ "," ++ (r.other.getD "nan") ++ "," ++
    (r.other2.getD "nan") ++ "," ++ (r.other3.getD "nan")

/-- Worker for `findParenGroups`, structured with explicit fuel so that the
kernel can evaluate it (each step consumes at least one character, so a fuel
of the text's length is always sufficient). -/
def findParenAux (fuel : Nat) (l : List Char) : List (List Char) :=
  match fuel, l with
  | 0, _ => []
  | _, [] => []
  | Nat.succ f, c :: cs =>
    if c = '(' then
      match splitFirst ')' cs with
      | none => []
      | some (grp, rest) => grp :: findParenAux f rest
    else findParenAux f cs

/-- `re.findall(r'\((.*?)\)', pattern)` (line 55): repeatedly take the text
between the next `(` and the nearest following `)` (non-greedy), resuming
after that `)`. -/
def findParenGroups (cs : List Char) : List (List Char) :=
  findParenAux cs.length cs

/-- Lines 57–62: scan one parenthesized component against every raw keyword of
`MAP_DICT` in insertion order; each contained keyword that is followed by a
comma contributes one clause `{canonical_kind: text-after-the-comma}` (the
loop has no `break`, so several keywords can fire for one component). -/
def clausesOfComponent (comp : List Char) : List JVal :=
  MAP_LIST.filterMap fun kv =>
    if (findSub kv.1.data comp).isSome then
      match afterSub (kv.1.data ++ [',']) comp with
      | some rest => some (.obj [(kv.2, .str (String.mk rest))])
      | none => none
    else none

/-- Lines 48–63: the logical rule built from one AND row. -/
def andRuleOf (r : CsvRow) : JVal :=
  .obj [("type", .str "logical"), ("mode", .str "and"),
        ("rules", .arr ((findParenGroups (joinRow r).data).flatMap clausesOfComponent))]

/-- Lines 46–63: logical rules are extracted only when some row's `pattern`
is exactly `"AND"` (`if 'AND' in df['pattern'].values`); then every row whose
`pattern` contains `AND` as a substring is turned into one logical rule. -/
def readListRules (rows : List CsvRow) : List JVal :=
  if rows.any (fun r => r.pattern = "AND") then
    (rows.filter (fun r => hasSub "AND" r.pattern)).map andRuleOf
  else []

/-- Lines 65–71: the flat rows are those whose `pattern` does not contain
`AND`; they enter the tabular pipeline with their three extra columns. -/
def readListFlat (rows : List CsvRow) : List Row :=
  (rows.filter (fun r => ¬ hasSub "AND" r.pattern)).map
    (fun r => ⟨r.pattern, r.address, [r.other, r.other2, r.other3]⟩)

/-- `parse_and_convert_to_dataframe` (lines 87–121).  The effectful
collaborators are passed as outcomes: `yamlFetch` is the result of
`read_yaml_from_url(link)` (an `.error` models a raised transport or decode
exception) and `csvFetch` the result of `pd.read_csv(url, ...)` inside
`read_list_from_url`.  For a `.yaml`/`.txt` link the YAML path is attempted
and any exception in it falls back to the structured-list path (`except:` at
line 117); other links go to the structured-list path directly. -/
def parse_and_convert_to_dataframe (link : String)
    (yamlFetch : Except String YamlDoc) (csvFetch : Except String (List CsvRow)) :
    Except String (List Row × List JVal) :=
  let listPath : Except String (List Row × List JVal) :=
    match csvFetch with
    | .error e => .error e
    | .ok rows => .ok (readListFlat rows, readListRules rows)
  if pyEndsWith ".yaml" link || pyEndsWith ".txt" link then
    match yamlFetch with
    | .error _ => listPath
    | .ok d =>
      match yamlRows d with
      | .error _ => listPath
      | .ok res => .ok res
  else listPath

/-! ## Normalization and aggregation (`parse_list_file`, lines 143–172) -/

/-- Line 144: `~df['pattern'].str.contains('#')`. -/
def keepNoHash (r : Row) : Bool := ! strHasChar '#' r.pattern

/-- Line 145: `df['pattern'].isin(MAP_DICT.keys())`. -/
def keepKnown (r : Row) : Bool := mapKeys.contains r.pattern

/-- Lines 144–147: drop rows whose `pattern` contains `#`, keep only rows
whose `pattern` is a `MAP_DICT` key, `drop_duplicates()` (first occurrence of
every full row wins — note this happens before the keyword mapping), then
replace the raw keyword by its canonical kind. -/
def normalize (rows : List Row) : List Row :=
  ((dedupF ((rows.filter keepNoHash).filter keepKnown)).map
    (fun r => { r with pattern := mapKind r.pattern }))

/-- The sorted list of distinct canonical kinds among the normalized rows:
`df.groupby('pattern')` sorts the group keys (pandas default `sort=True`). -/
def kindsOf (n : List Row) : List String :=
  (dedupF (n.map Row.pattern)).insertionSort sLe

/-- The `address` list of one group, in row order (the group contents of
`df.groupby('pattern')['address'].apply(list)`). -/
def valuesOf (n : List Row) (k : String) : List String :=
  (n.filter (fun r => r.pattern = k)).map Row.address

/-- `df.groupby('pattern')['address'].apply(list).to_dict()` (line 155):
group keys in sorted order, each with its address list in row order. -/
def groupsOf (n : List Row) : List (String × List String) :=
  (kindsOf n).map (fun k => (k, valuesOf n k))

/-- One flat rule entry `{pattern: [address.strip() ...]}` (lines 157 and 162). -/
def flatEntry (k : String) (vs : List String) : JVal :=
  .obj [(k, .arr ((vs.map pyStrip).map JVal.str))]

/-- Lines 155–163: the loop appends one flat entry per non-`domain` group in
group order (`domain_suffix` has its own branch but builds the same entry);
`domain` values are set aside. -/
def flatRulesOf (n : List Row) : List JVal :=
  (groupsOf n).filterMap
    (fun g => if g.1 = "domain" then none else some (flatEntry g.1 g.2))

/-- Lines 159–160 and 166: the `domain` group's addresses, stripped, then
deduplicated by `list(set(...))` (an unordered set in Python; `dedupF` keeps
the content faithfully, and the canonical sort later makes the order
irrelevant). -/
def domainValsOf (n : List Row) : List String :=
  dedupF ((((groupsOf n).lookup "domain").getD []).map pyStrip)

/-- Lines 151–172: the `rules` array of `result_rules` — the flat entries,
with the deduplicated `domain` entry inserted in front when non-empty
(line 168), and the logical rules appended at the end (line 172). -/
def rulesListOf (rows : List Row) (logic : List JVal) : List JVal :=
  (if (domainValsOf (normalize rows)).isEmpty then flatRulesOf (normalize rows)
   else .obj [("domain", .arr ((domainValsOf (normalize rows)).map JVal.str))] ::
     flatRulesOf (normalize rows)) ++ logic

/-- `result_rules = {"version": 1, "rules": [...]}` (line 151) after the
loop has filled in the rules. -/
def aggregateDoc (rows : List Row) (logic : List JVal) : JVal :=
  .obj [("version", .num 1), ("rules", .arr (rulesListOf rows logic))]

/-! ## The per-source driver and the orchestrator
(`parse_list_file`, lines 135–187, and the module toplevel loop, 200–202) -/

/-- `os.path.basename(link).split('.')[0]` (line 175). -/
def baseNameOf (link : String) : String :=
  String.mk ((splitCh '.' ((splitCh '/' link.data).getLastD [])).headD [])

/-- The JSON output file name for a link (line 175; the output directory
prefix is common to every file and omitted). -/
def jsonNameOf (link : String) : String := baseNameOf link ++ ".json"

/-- The compiled-artifact name, `file_name.replace(".json", ".srs")` (line 182). -/
def srsNameOf (link : String) : String := baseNameOf link ++ ".srs"

/-- The effectful outcomes a single source's pipeline can encounter, passed
as data: `fetched` is the result of `parse_and_convert_to_dataframe` (an
`.error` models any exception raised while fetching or parsing), `writeOk`
the result of `os.makedirs` plus the `open`/`write` of the JSON file, and
`compileExit` the exit status that `os.system("sing-box ...")` returns. -/
structure SourceRun where
  link : String
  fetched : Except String (List Row × List JVal)
  writeOk : Except String Unit
  compileExit : Nat

/-- What one source's run produces: the value appended to
`result_file_names` (`none` when the handler returned through `except`),
the names of the files that now exist, and the diagnostic lines printed. -/
structure SourceResult where
  recorded : Option String
  files : List String
  logs : List String
deriving DecidableEq, Repr

/-- The `try:` body of `parse_list_file` (lines 136–184): propagate any
raised exception; otherwise the JSON document is computed and written, the
compiler is invoked — its exit status is *returned* by `os.system`, never
raised, and the source ignores it — and the JSON file name is returned.
The `.srs` artifact is produced by the external compiler exactly when it
exits with status 0 (the write is modelled as atomic: a failed write leaves
no file, per the spec's reliable-filesystem interface). -/
def parse_list_file_body (s : SourceRun) : Except String (String × List String) :=
  match s.fetched with
  | .error e => .error e
  | .ok rl =>
    let _out := emitJson (aggregateDoc rl.1 rl.2)
    let fname := jsonNameOf s.link
    match s.writeOk with
    | .error e => .error e
    | .ok _ =>
      .ok (fname, fname :: (if s.compileExit = 0 then [srsNameOf s.link] else []))

/-- The diagnostic printed by the `except` handler (line 186). -/
def errMsg (link e : String) : String :=
  "处理链接 " ++ link ++ " 时出错：" ++ e

/-- `parse_list_file` (lines 135–187): the body wrapped in
`try ... except Exception as e: print(...); pass` — every exception is
absorbed, logged with the link, and turns the result into `None`. -/
def parse_list_file (s : SourceRun) : SourceResult :=
  match parse_list_file_body s with
  | .ok (n, files) => ⟨some n, files, []⟩
  | .error e => ⟨none, [], [errMsg s.link e]⟩

/-- The module toplevel loop (lines 200–202): process every link in order,
collecting the recorded results, the files written and the diagnostics. -/
def runAll (ss : List SourceRun) : List (Option String) × List String × List String :=
  match ss with
  | [] => ([], [], [])
  | s :: rest =>
    let r := parse_list_file s
    let (ns, fs, ls) := runAll rest
    (r.recorded :: ns, r.files ++ fs, r.logs ++ ls)

/-! ## Observation helpers used by the theorems -/

/-- The first key of a rule entry (flat entries have exactly one key). -/
def headKeyOf : JVal → String
  | .obj ((k, _) :: _) => k
  | _ => ""

/-- The key sequence of a rules array. -/
def keysOfRules (l : List JVal) : List String := l.map headKeyOf

/-- The value strings of a single-key flat entry. -/
def valueStringsOf : JVal → List String
  | .obj [(_, .arr vs)] =>
    vs.filterMap (fun v => match v with | .str s => some s | _ => none)
  | _ => []

/-- The number of clauses of a logical rule entry. -/
def clauseCount : JVal → Nat
  | .obj [_, _, (_, .arr cs)] => cs.length
  | _ => 0

/-- Whether a rule entry is a single-key flat entry keyed by a canonical kind. -/
def isFlatCanonical : JVal → Bool
  | .obj [(k, .arr _)] => canonicalKinds.contains k
  | _ => false

/-- A row passes both normalization filters: its pattern has no `#` and is a
known raw keyword. -/
def keepRow (r : Row) : Bool := keepNoHash r && keepKnown r

/-! ## Concrete inputs referenced by individual claims -/

/-- A run whose compiler invocation exits non-zero while everything else
succeeds (claim C2). -/
def c2Run : SourceRun := ⟨"https://example.org/x.list", .ok ([], []), .ok (), 1⟩

/-- Two synonymous spellings of `domain_suffix` carrying the same address
(claim C3). -/
def c3Rows : List Row :=
  [⟨"DOMAIN-SUFFIX", "a.com", [none]⟩, ⟨"HOST-SUFFIX", "a.com", [none]⟩]

/-- The same raw spelling repeated (claim C3). -/
def c3RowsSame : List Row :=
  [⟨"DOMAIN-SUFFIX", "a.com", [none]⟩, ⟨"DOMAIN-SUFFIX", "a.com", [none]⟩]

/-- The AND row of claim C4's example. -/
def c4Row : CsvRow := ⟨"AND", "((DOMAIN,foo.com),(GEOIP,CN))", none, none, none⟩

/-- An AND row with a single parenthesized group whose value itself contains
`GEOIP,` (claim C4's counterexample). -/
def c4BadRow : CsvRow := ⟨"AND", "((DOMAIN,GEOIP,CN))", none, none, none⟩

/-- The payload entries of claim C5's example. -/
def c5Items : List String := ["+a.com", "192.168.1.0/24", "DOMAIN-KEYWORD,ads"]

/-- The rows parsed from claim C5's example payload. -/
def c5Rows : List Row := c5Items.map rowOfItem

/-- The rows of claim C6's example. -/
def c6Rows : List Row :=
  [⟨"DOMAIN", "a.com", [none]⟩, ⟨"HOST", "a.com", [none]⟩, ⟨"DOMAIN", "b.com", [none]⟩]

/-- A source whose fetch fails (claim C8's source B). -/
def c8RunA : SourceRun := ⟨"https://example.org/a.list", .ok ([], []), .ok (), 0⟩

/-- See `c8RunA`. -/
def c8RunB : SourceRun := ⟨"https://example.org/b.list", .error "boom", .ok (), 0⟩

/-- See `c8RunA`. -/
def c8RunC : SourceRun := ⟨"https://example.org/c.list", .ok ([], []), .ok (), 0⟩

/-! ## Properties of the string order -/

theorem ltB_asymm : ∀ as bs : List Char, ltB as bs = true → ltB bs as = false := by
  intro as
  induction as with
  | nil => intro bs h; cases bs <;> simp_all [ltB]
  | cons a as ih =>
    intro bs h
    cases bs with
    | nil => simp [ltB] at h
    | cons b bs =>
      simp only [ltB] at h ⊢
      rcases Nat.lt_trichotomy a.toNat b.toNat with hlt | heq | hgt
      · have h1 : ¬ b.toNat < a.toNat := by omega
        have h2 : ¬ b.toNat = a.toNat := by omega
        simp [h1, h2]
      · have h1 : ¬ a.toNat < b.toNat := by omega
        have h2 : ¬ b.toNat < a.toNat := by omega
        simp only [if_neg h1, if_pos heq] at h
        simp only [if_neg h2, if_pos heq.symm]
        exact ih bs h
      · have h1 : ¬ a.toNat < b.toNat := by omega
        have h2 : ¬ a.toNat = b.toNat := by omega
        simp [h1, h2] at h

theorem ltB_conn : ∀ as bs : List Char,
    ltB as bs = false → ltB bs as = false → as = bs := by
  intro as
  induction as with
  | nil => intro bs h _; cases bs <;> simp_all [ltB]
  | cons a as ih =>
    intro bs h h'
    cases bs with
    | nil => simp [ltB] at h'
    | cons b bs =>
      simp only [ltB] at h h'
      rcases Nat.lt_trichotomy a.toNat b.toNat with hlt | heq | hgt
      · simp [hlt] at h
      · have hab : a = b := Char.eq_of_val_eq (UInt32.toNat.inj heq)
        have h1 : ¬ a.toNat < b.toNat := by omega
        have h2 : ¬ b.toNat < a.toNat := by omega
        simp only [if_neg h1, if_pos heq] at h
        simp only [if_neg h2, if_pos heq.symm] at h'
        rw [hab, ih bs h h']
      · simp [hgt] at h'

theorem ltB_trans : ∀ as bs cs : List Char,
    ltB as bs = true → ltB bs cs = true → ltB as cs = true := by
  intro as
  induction as with
  | nil =>
    intro bs cs h h'
    cases bs with
    | nil => simp [ltB] at h
    | cons b bs => cases cs with
      | nil => simp [ltB] at h'
      | cons c cs => simp [ltB]
  | cons a as ih =>
    intro bs cs h h'
    cases bs with
    | nil => simp [ltB] at h
    | cons b bs =>
      cases cs with
      | nil => simp [ltB] at h'
      | cons c cs =>
        simp only [ltB] at h h' ⊢
        rcases Nat.lt_trichotomy a.toNat b.toNat with hab | hab | hab
        · rcases Nat.lt_trichotomy b.toNat c.toNat with hbc | hbc | hbc
          · rw [if_pos (Nat.lt_trans hab hbc)]
          · rw [if_pos (hbc ▸ hab)]
          · have h1 : ¬ b.toNat < c.toNat := by omega
            have h2 : ¬ b.toNat = c.toNat := by omega
            simp [h1, h2] at h'
        · rcases Nat.lt_trichotomy b.toNat c.toNat with hbc | hbc | hbc
          · rw [if_pos (hab ▸ hbc)]
          · have hac : a.toNat = c.toNat := hab.trans hbc
            have h1 : ¬ a.toNat < b.toNat := by omega
            have h2 : ¬ b.toNat < c.toNat := by omega
            have h3 : ¬ a.toNat < c.toNat := by omega
            simp only [if_neg h1, if_pos hab] at h
            simp only [if_neg h2, if_pos hbc] at h'
            simp only [if_neg h3, if_pos hac]
            exact ih bs cs h h'
          · have h1 : ¬ b.toNat < c.toNat := by omega
            have h2 : ¬ b.toNat = c.toNat := by omega
            simp [h1, h2] at h'
        · have h1 : ¬ a.toNat < b.toNat := by omega
          have h2 : ¬ a.toNat = b.toNat := by omega
          simp [h1, h2] at h

instance : IsTotal String sLe :=
  ⟨fun a b => by
    unfold sLe
    cases hba : ltB b.data a.data with
    | false => exact Or.inl rfl
    | true => exact Or.inr (ltB_asymm _ _ hba)⟩

instance : IsTrans String sLe :=
  ⟨fun a b c hab hbc => by
    unfold sLe at hab hbc ⊢
    cases hca : ltB c.data a.data with
    | false => rfl
    | true =>
      cases hbc' : ltB b.data c.data with
      | false =>
        have heqd : b.data = c.data := ltB_conn _ _ hbc' hbc
        rw [← heqd] at hca
        rw [hca] at hab
        exact hab
      | true =>
        have hba : ltB b.data a.data = true := ltB_trans _ _ _ hbc' hca
        rw [hba] at hab
        exact hab⟩

instance : IsAntisymm String sLe :=
  ⟨fun a b hab hba => by
    unfold sLe at hab hba
    have h := ltB_conn a.data b.data hba hab
    cases a; cases b
    exact congrArg String.mk h⟩

/-! ## Properties of first-occurrence deduplication -/

theorem mem_dedupGo {α : Type} [DecidableEq α] {x : α} :
    ∀ (seen l : List α), x ∈ dedupGo seen l ↔ x ∈ l ∧ x ∉ seen := by
  intro seen l
  induction l generalizing seen with
  | nil => simp [dedupGo]
  | cons a as ih =>
    by_cases h : a ∈ seen
    · simp only [dedupGo, if_pos h, ih, List.mem_cons]
      constructor
      · rintro ⟨hx, hns⟩; exact ⟨Or.inr hx, hns⟩
      · rintro ⟨hx | hx, hns⟩
        · exact absurd (hx ▸ h) hns
        · exact ⟨hx, hns⟩
    · simp only [dedupGo, if_neg h, List.mem_cons, ih]
      constructor
      · rintro (rfl | ⟨hx, hns⟩)
        · exact ⟨Or.inl rfl, h⟩
        · exact ⟨Or.inr hx, fun hc => hns (Or.inr hc)⟩
      · rintro ⟨rfl | hx, hns⟩
        · exact Or.inl rfl
        · by_cases hxa : x = a
          · exact Or.inl hxa
          · exact Or.inr ⟨hx, fun hc => hc.elim hxa hns⟩

theorem mem_dedupF {α : Type} [DecidableEq α] {x : α} {l : List α} :
    x ∈ dedupF l ↔ x ∈ l := by
  simp [dedupF, mem_dedupGo]

theorem nodup_dedupGo {α : Type} [DecidableEq α] :
    ∀ (seen l : List α), (dedupGo seen l).Nodup := by
  intro seen l
  induction l generalizing seen with
  | nil => simp [dedupGo]
  | cons a as ih =>
    by_cases h : a ∈ seen
    · simpa [dedupGo, if_pos h] using ih seen
    · simp only [dedupGo, if_neg h]
      refine List.nodup_cons.mpr ⟨fun hc => ?_, ih (a :: seen)⟩
      exact ((mem_dedupGo (a :: seen) as).mp hc).2 (List.mem_cons_self a seen)

theorem nodup_dedupF {α : Type} [DecidableEq α] (l : List α) :
    (dedupF l).Nodup := nodup_dedupGo [] l

/-- `dedupF` maps permutations to permutations: the outputs are duplicate-free
lists with the same membership. -/
theorem dedupF_perm {α : Type} [DecidableEq α] {l l' : List α}
    (h : l.Perm l') : (dedupF l).Perm (dedupF l') := by
  refine List.perm_iff_count.mpr fun a => ?_
  by_cases ha : a ∈ l
  · have ha' : a ∈ l' := h.mem_iff.mp ha
    rw [List.count_eq_one_of_mem (nodup_dedupF l) (mem_dedupF.mpr ha),
      List.count_eq_one_of_mem (nodup_dedupF l') (mem_dedupF.mpr ha')]
  · have ha' : a ∉ l' := fun hc => ha (h.mem_iff.mpr hc)
    rw [List.count_eq_zero_of_not_mem (fun hc => ha (mem_dedupF.mp hc)),
      List.count_eq_zero_of_not_mem (fun hc => ha' (mem_dedupF.mp hc))]

/-! ## Supporting lemmas -/

/-- The flat-entry keys are the sorted kinds minus `domain`. -/
theorem keysOfRules_flatRulesOf (n : List Row) :
    keysOfRules (flatRulesOf n) = (kindsOf n).filter (fun k => ¬ k = "domain") := by
  unfold flatRulesOf groupsOf keysOfRules
  generalize kindsOf n = ks
  induction ks with
  | nil => rfl
  | cons k ks ih =>
    by_cases hk : k = "domain"
    · simpa [hk] using ih
    · simpa [hk, flatEntry, headKeyOf] using ih

/-- Looking up a key in a key-indexed map of pairs: first branch. -/
theorem lookup_map_pair_of_mem {β : Type} (f : String → β) :
    ∀ (ks : List String) (k : String), k ∈ ks →
      (ks.map (fun x => (x, f x))).lookup k = some (f k) := by
  intro ks
  induction ks with
  | nil => intro k h; cases h
  | cons k' ks ih =>
    intro k h
    by_cases he : k = k'
    · simp [List.lookup, he]
    · have hm : k ∈ ks := by
        cases List.mem_cons.mp h with
        | inl hh => exact absurd hh he
        | inr hh => exact hh
      have hb : (k == k') = false := by simp [he]
      simp [List.lookup, hb, ih k hm]

/-- Looking up a key in a key-indexed map of pairs: missing key. -/
theorem lookup_map_pair_of_not_mem {β : Type} (f : String → β) :
    ∀ (ks : List String) (k : String), k ∉ ks →
      (ks.map (fun x => (x, f x))).lookup k = none := by
  intro ks
  induction ks with
  | nil => intro k _; rfl
  | cons k' ks ih =>
    intro k h
    have he : ¬ k = k' := fun hh => h (List.mem_cons.mpr (Or.inl hh))
    have ht : k ∉ ks := fun hh => h (List.mem_cons.mpr (Or.inr hh))
    have hb : (k == k') = false := by simp [he]
    simp [List.lookup, hb, ih k ht]

/-- Membership in the sorted distinct kinds is membership among the rows'
patterns. -/
theorem mem_kindsOf {k : String} {n : List Row} :
    k ∈ kindsOf n ↔ k ∈ n.map Row.pattern := by
  unfold kindsOf
  rw [List.mem_insertionSort]
  exact mem_dedupF

/-- A kind with no rows has an empty group. -/
theorem valuesOf_eq_nil_of_not_mem {k : String} {n : List Row}
    (h : k ∉ kindsOf n) : valuesOf n k = [] := by
  unfold valuesOf
  rw [List.map_eq_nil_iff]
  rw [List.filter_eq_nil_iff]
  intro r hr hpat
  exact h (mem_kindsOf.mpr (List.mem_map.mpr ⟨r, hr, by
    have := of_decide_eq_true hpat
    exact this⟩))

/-- The group dict holds for each kind exactly its group's addresses. -/
theorem lookup_groupsOf_getD (n : List Row) (k : String) :
    (((groupsOf n).lookup k).getD []) = valuesOf n k := by
  unfold groupsOf
  by_cases h : k ∈ kindsOf n
  · rw [lookup_map_pair_of_mem (valuesOf n) (kindsOf n) k h]
    rfl
  · rw [lookup_map_pair_of_not_mem (valuesOf n) (kindsOf n) k h]
    rw [valuesOf_eq_nil_of_not_mem h]
    rfl

/-! ## The claims -/

/-- C2: the claim's premise fails on the code: `os.system` reports a
non-zero compiler exit through its *return value*, which line 183 discards —
nothing is raised, so the `except` handler never runs: the source is
recorded by its file name and nothing is logged, contradicting "caught and
logged ... recorded as absent". -/
theorem C2_compile_failure_counterexample :
    c2Run.compileExit ≠ 0 ∧
    (parse_list_file c2Run).recorded = some "x.json" ∧
    (parse_list_file c2Run).logs = [] := by
  decide

/-- C2 (amended): a non-zero exit of the external compiler is ignored: for a
source whose fetch/parse and write succeed, the result is recorded as the
JSON file name and nothing is logged whatever the compiler's exit status;
the only consequence of a non-zero exit is that the `.srs` artifact is
absent. -/
theorem C2_compile_failure_ignored (s : SourceRun) (rl : List Row × List JVal)
    (hf : s.fetched = .ok rl) (hw : s.writeOk = .ok ()) :
    (parse_list_file s).recorded = some (jsonNameOf s.link) ∧
    (parse_list_file s).logs = [] ∧
    (s.compileExit ≠ 0 → (parse_list_file s).files = [jsonNameOf s.link]) := by
  unfold parse_list_file parse_list_file_body
  rw [hf, hw]
  refine ⟨rfl, rfl, fun h => ?_⟩
  simp [h]

/-- Witness for C2's amended theorem at `c2Run`. -/
theorem C2_compile_failure_ignored_witness :
    (parse_list_file c2Run).recorded = some (jsonNameOf c2Run.link) ∧
    (parse_list_file c2Run).logs = [] ∧
    (parse_list_file c2Run).files = [jsonNameOf c2Run.link] := by
  have h := C2_compile_failure_ignored c2Run ([], []) rfl rfl
  exact ⟨h.1, h.2.1, h.2.2 (by decide)⟩

/-- C3: the claim fails on the code: `drop_duplicates()` (line 146) runs
*before* the keyword mapping (line 147), so the two synonymous rows
`DOMAIN-SUFFIX,a.com` and `HOST-SUFFIX,a.com` both survive and the
`domain_suffix` group carries the value `a.com` twice. -/
theorem C3_synonym_duplicates_counterexample :
    (rulesListOf c3Rows []).map valueStringsOf = [["a.com", "a.com"]] ∧
    ¬ (["a.com", "a.com"] : List String).Nodup := by
  decide

/-- C3 (amended): duplicate removal happens on the *raw* rows — same raw
keyword, address and extra columns — before the synonym mapping: the
deduplicated raw rows are duplicate-free and a repeated identical row
contributes once, but two synonymous spellings of the same kind carrying
the same address each contribute a value, so a flat group can contain
duplicates. -/
theorem C3_raw_dedup_before_mapping :
    (∀ rows : List Row,
      (dedupF ((rows.filter keepNoHash).filter keepKnown)).Nodup) ∧
    normalize c3Rows =
      [⟨"domain_suffix", "a.com", [none]⟩, ⟨"domain_suffix", "a.com", [none]⟩] ∧
    (rulesListOf c3RowsSame []).map valueStringsOf = [["a.com"]] ∧
    (rulesListOf c3Rows []).map valueStringsOf = [["a.com", "a.com"]] := by
  exact ⟨fun rows => nodup_dedupF _, by decide, by decide, by decide⟩

/-- C4: the claim fails on the code: the keyword scan (lines 57–62) has no
`break` and appends one clause for *every* synonym-table keyword that occurs
in a group followed by a comma, so the single group `(DOMAIN,GEOIP,CN)`
contributes two clauses (`domain: GEOIP,CN` and `geoip: CN`), not exactly
one. -/
theorem C4_two_clauses_counterexample :
    findParenGroups (joinRow c4BadRow).data = ["(DOMAIN,GEOIP,CN".data] ∧
    (readListRules [c4BadRow]).map clauseCount = [2] := by
  decide

/-- C4 (amended): when some row's pattern is exactly `AND`, each row whose
pattern contains `AND` yields one logical rule whose clauses come from
scanning every parenthesized group against the whole keyword table: each
keyword contained in the group and followed by a comma contributes one
clause (so a group can contribute zero or several); on the claim's example
row the scan fires exactly once per group and the output is exactly the
stated single logical rule. -/
theorem C4_and_row_example :
    readListRules [c4Row] =
      [.obj [("type", .str "logical"), ("mode", .str "and"),
             ("rules", .arr [.obj [("domain", .str "foo.com")],
                             .obj [("geoip", .str "CN")]])]] := rfl

/-- C5: the claim fails on the code: `df.groupby('pattern')` sorts its group
keys (pandas default `sort=True`), so the flat groups of the example —
first-encountered as `domain_suffix`, `ip_cidr`, `domain_keyword` — are
emitted in sorted kind order, not first-encountered order. -/
theorem C5_first_seen_order_counterexample :
    keysOfRules (rulesListOf c5Rows []) =
      ["domain_keyword", "domain_suffix", "ip_cidr"] ∧
    keysOfRules (rulesListOf c5Rows []) ≠
      ["domain_suffix", "ip_cidr", "domain_keyword"] := by
  decide

/-- C5 (amended): the aggregator emits the non-`domain` flat groups in
lexicographically sorted order of canonical kind (the order `df.groupby`
produces), not in first-encountered order; the example payload
`'+a.com'`, `'192.168.1.0/24'`, `'DOMAIN-KEYWORD,ads'` therefore yields,
before canonicalization, the groups `domain_keyword`, `domain_suffix`,
`ip_cidr` in that order. -/
theorem C5_groups_in_sorted_kind_order :
    (∀ rows : List Row,
      List.Sorted sLe (keysOfRules (flatRulesOf (normalize rows)))) ∧
    rulesListOf c5Rows [] =
      [flatEntry "domain_keyword" ["ads"], flatEntry "domain_suffix" ["a.com"],
       flatEntry "ip_cidr" ["192.168.1.0/24"]] := by
  constructor
  · intro rows
    rw [keysOfRules_flatRulesOf]
    exact (List.sorted_insertionSort sLe _).filter _
  · rfl

/-- C6: the `domain` kind's values are collected across the source into one
duplicate-free set (`list(set(...))`, line 166) containing exactly the
stripped addresses of the `domain`-kind rows, and when that set is non-empty
its entry is inserted as the first rule entry (line 168); on the example rows
`(DOMAIN, a.com)`, `(HOST, a.com)`, `(DOMAIN, b.com)` the set is exactly
`{a.com, b.com}`. -/
theorem C6_domain_set_inserted_first (rows : List Row) (logic : List JVal) :
    (domainValsOf (normalize rows)).Nodup ∧
    (∀ a : String, a ∈ domainValsOf (normalize rows) ↔
        a ∈ (valuesOf (normalize rows) "domain").map pyStrip) ∧
    (domainValsOf (normalize rows) ≠ [] →
      (rulesListOf rows logic).headD (.num 0) =
        .obj [("domain", .arr ((domainValsOf (normalize rows)).map JVal.str))]) ∧
    domainValsOf (normalize c6Rows) = ["a.com", "b.com"] := by
  refine ⟨nodup_dedupF _, ?_, ?_, by decide⟩
  · intro a
    unfold domainValsOf
    rw [lookup_groupsOf_getD]
    exact mem_dedupF
  · intro h
    unfold rulesListOf
    have he : (domainValsOf (normalize rows)).isEmpty = false := by
      cases hdv : domainValsOf (normalize rows) with
      | nil => exact absurd hdv h
      | cons x xs => rfl
    simp [he]

/-- Witness for C6 at the example rows. -/
theorem C6_domain_set_inserted_first_witness :
    (rulesListOf c6Rows []).headD (.num 0) =
      .obj [("domain", .arr ((domainValsOf (normalize c6Rows)).map JVal.str))] ∧
    domainValsOf (normalize c6Rows) = ["a.com", "b.com"] := by
  have h := C6_domain_set_inserted_first c6Rows []
  exact ⟨h.2.2.1 (by decide), h.2.2.2⟩

/-- C9: classification of a comma-free entry (lines 100–110): an entry that
parses as a strict IPv4 network (implicit `/32`) or, failing that, a strict
IPv6 network (implicit `/128`) becomes `IP-CIDR`; otherwise an entry whose
(quote-stripped) address starts with `+` or `.` becomes `DOMAIN-SUFFIX` with
the leading `+`/`.` markers stripped; otherwise `DOMAIN` — and on the
claim's four examples: `1.2.3.4` → `IP-CIDR`, `2001:db8::1` → `IP-CIDR`,
`example.com` → `DOMAIN`, `+example.com` → `DOMAIN-SUFFIX` with address
`example.com`. -/
theorem C9_entry_classification :
    (∀ item : String, strHasChar ',' item = false →
      (is_ipv4_or_ipv6 item).isSome = true →
      (rowOfItem item).pattern = "IP-CIDR") ∧
    (∀ item : String, strHasChar ',' item = false →
      (is_ipv4_or_ipv6 item).isSome = false →
      (startsWithCh '+' (stripQuotes item) || startsWithCh '.' (stripQuotes item)) = true →
      rowOfItem item =
        ⟨"DOMAIN-SUFFIX", pyStrip (lstripPlusDot (stripQuotes item)), [none]⟩) ∧
    (∀ item : String, strHasChar ',' item = false →
      (is_ipv4_or_ipv6 item).isSome = false →
      (startsWithCh '+' (stripQuotes item) || startsWithCh '.' (stripQuotes item)) = false →
      rowOfItem item = ⟨"DOMAIN", pyStrip (stripQuotes item), [none]⟩) ∧
    rowOfItem "1.2.3.4" = ⟨"IP-CIDR", "1.2.3.4", [none]⟩ ∧
    rowOfItem "2001:db8::1" = ⟨"IP-CIDR", "2001:db8::1", [none]⟩ ∧
    rowOfItem "example.com" = ⟨"DOMAIN", "example.com", [none]⟩ ∧
    rowOfItem "+example.com" = ⟨"DOMAIN-SUFFIX", "example.com", [none]⟩ := by
  refine ⟨?_, ?_, ?_, by decide, by decide, by decide, by decide⟩
  · intro item h1 h2
    unfold rowOfItem
    simp only [h1, h2]
    simp
    decide
  · intro item h1 h2 h3
    unfold rowOfItem
    simp only [h1, h2, h3]
    simp
    decide
  · intro item h1 h2 h3
    unfold rowOfItem
    simp only [h1, h2, h3]
    simp
    decide

/-- Witness for C9's conditional clauses at concrete entries. -/
theorem C9_entry_classification_witness :
    (rowOfItem "10.0.0.0/8").pattern = "IP-CIDR" ∧
    rowOfItem "+m.net" = ⟨"DOMAIN-SUFFIX", pyStrip (lstripPlusDot (stripQuotes "+m.net")), [none]⟩ ∧
    rowOfItem "m.net" = ⟨"DOMAIN", pyStrip (stripQuotes "m.net"), [none]⟩ := by
  exact ⟨C9_entry_classification.1 "10.0.0.0/8" (by decide) (by decide),
    C9_entry_classification.2.1 "+m.net" (by decide) (by decide) (by decide),
    C9_entry_classification.2.2.1 "m.net" (by decide) (by decide) (by decide)⟩

/-- C10: a `.yaml`/`.txt` source whose decoded content is a mapping without a
`payload` key parses to zero rows and zero logical rules — no exception, so
no fallback to the structured-list grammar (the result is the YAML path's,
whatever the structured-list fetch would have returned) — and the emitted
document is `{"version": 1, "rules": []}` (serialized with its keys sorted). -/
theorem C10_mapping_without_payload (link : String)
    (csvFetch : Except String (List CsvRow))
    (h : pyEndsWith ".yaml" link = true ∨ pyEndsWith ".txt" link = true) :
    parse_and_convert_to_dataframe link (.ok (.mapping none)) csvFetch = .ok ([], []) ∧
    rulesListOf [] [] = [] ∧
    emitJson (aggregateDoc [] []) = "\x7b\n  \"rules\": [],\n  \"version\": 1\n\x7d" := by
  refine ⟨?_, rfl, by decide⟩
  unfold parse_and_convert_to_dataframe yamlRows
  rcases h with h | h <;> simp [h]

/-- Witness for C10 at a concrete `.yaml` link. -/
theorem C10_mapping_without_payload_witness :
    parse_and_convert_to_dataframe "https://example.org/rules.yaml"
        (.ok (.mapping none)) (.error "unused") = .ok ([], []) ∧
    emitJson (aggregateDoc [] []) = "\x7b\n  \"rules\": [],\n  \"version\": 1\n\x7d" := by
  have h := C10_mapping_without_payload "https://example.org/rules.yaml"
    (.error "unused") (Or.inl (by decide))
  exact ⟨h.1, h.2.2⟩

/-- Every raw keyword maps into the nine canonical kinds. -/
theorem mapKind_mem_canonical : ∀ p ∈ mapKeys, mapKind p ∈ canonicalKinds := by
  intro p hp
  fin_cases hp <;> decide

/-- Every kind occurring among normalized rows is canonical. -/
theorem kindsOf_normalize_canonical (rows : List Row) :
    ∀ k ∈ kindsOf (normalize rows), k ∈ canonicalKinds := by
  intro k hk
  rcases List.mem_map.mp (mem_kindsOf.mp hk) with ⟨r, hr, hpat⟩
  unfold normalize at hr
  rcases List.mem_map.mp hr with ⟨r0, hr0, hmap⟩
  have hx : r0 ∈ (rows.filter keepNoHash).filter keepKnown := mem_dedupF.mp hr0
  have hknown : keepKnown r0 = true := (List.mem_filter.mp hx).2
  have hmem : r0.pattern ∈ mapKeys := by
    unfold keepKnown at hknown
    exact List.elem_iff.mp hknown
  have : r.pattern = mapKind r0.pattern := by rw [← hmap]
  rw [← hpat, this]
  exact mapKind_mem_canonical r0.pattern hmem

/-- Filtering the dropped rows away first changes nothing: the two
normalization filters absorb a `keepRow` pre-filter. -/
theorem filter_keep_absorb : ∀ rows : List Row,
    (rows.filter keepNoHash).filter keepKnown =
      (((rows.filter keepRow).filter keepNoHash)).filter keepKnown := by
  intro rows
  induction rows with
  | nil => rfl
  | cons r rs ih =>
    by_cases h1 : keepNoHash r = true
    · by_cases h2 : keepKnown r = true
      · have hk : keepRow r = true := by simp [keepRow, h1, h2]
        simp only [List.filter_cons, h1, h2, hk, if_pos]
        simpa [h1, h2] using congrArg (List.cons r) ih
      · have hk : keepRow r = false := by simp [keepRow, h1, h2]
        simp [List.filter_cons, h1, h2, hk, ih]
    · have hk : keepRow r = false := by simp [keepRow, h1]
      simp [List.filter_cons, h1, hk, ih]

/-- C7: every flat entry of the document is a single-key entry keyed by one
of the nine canonical kinds; the logical rules are appended after the flat
part unchanged; and rows whose pattern contains `#` or is not a raw keyword
of the synonym table never influence the output — pre-filtering them away
yields the identical rules array. -/
theorem C7_vocabulary_closure (rows : List Row) (logic : List JVal) :
    ((rulesListOf rows []).all isFlatCanonical) = true ∧
    rulesListOf rows logic = rulesListOf rows [] ++ logic ∧
    rulesListOf rows logic = rulesListOf (rows.filter keepRow) logic := by
  refine ⟨?_, ?_, ?_⟩
  · rw [List.all_eq_true]
    intro j hj
    unfold rulesListOf at hj
    rw [List.append_nil] at hj
    have hflat : ∀ j' ∈ flatRulesOf (normalize rows), isFlatCanonical j' = true := by
      intro j' hj'
      rcases List.mem_filterMap.mp hj' with ⟨g, hg, hfg⟩
      by_cases hd : g.1 = "domain"
      · rw [if_pos hd] at hfg; cases hfg
      · rw [if_neg hd] at hfg
        rcases List.mem_map.mp hg with ⟨k, hk, hgk⟩
        have hkc : k ∈ canonicalKinds := kindsOf_normalize_canonical rows k hk
        have : g.1 = k := by rw [← hgk]
        rw [← Option.some_inj.mp hfg]
        unfold isFlatCanonical flatEntry
        rw [this]
        exact List.elem_eq_true_of_mem hkc
    by_cases he : (domainValsOf (normalize rows)).isEmpty
    · rw [if_pos he] at hj
      exact hflat j hj
    · rw [if_neg he] at hj
      rcases List.mem_cons.mp hj with hj | hj
      · rw [hj]
        rfl
      · exact hflat j hj
  · unfold rulesListOf
    by_cases h : (domainValsOf (normalize rows)).isEmpty <;> simp [h]
  · unfold rulesListOf
    have : normalize rows = normalize (rows.filter keepRow) := by
      unfold normalize
      rw [filter_keep_absorb]
    rw [this]

/-- C8: per-source failure isolation.  For any three sources where A and C
fetch/parse and write successfully while B raises — during fetch/parse
(`B.fetched` is an error) or during the write (`B.writeOk` is an error) —
the run records A and C by their JSON file names and B as `none`, the files
produced are exactly A's and C's (none for B), and the only diagnostic is
the handler's message naming B's link; nothing propagates past the loop
(`parse_list_file` absorbs every raised exception into a `none` result by
construction). -/
theorem C8_per_source_isolation (A B C : SourceRun)
    (rlA rlC : List Row × List JVal) (eB : String)
    (hA : A.fetched = .ok rlA) (hAw : A.writeOk = .ok ())
    (hC : C.fetched = .ok rlC) (hCw : C.writeOk = .ok ())
    (hB : B.fetched = .error eB ∨
      (B.writeOk = .error eB ∧ ∃ rl, B.fetched = .ok rl)) :
    runAll [A, B, C] =
      ([some (jsonNameOf A.link), none, some (jsonNameOf C.link)],
       (parse_list_file A).files ++ (parse_list_file C).files,
       [errMsg B.link eB]) ∧
    (parse_list_file B).files = [] := by
  have hAr : (parse_list_file A).recorded = some (jsonNameOf A.link) := by
    unfold parse_list_file parse_list_file_body
    rw [hA, hAw]
  have hAl : (parse_list_file A).logs = [] := by
    unfold parse_list_file parse_list_file_body
    rw [hA, hAw]
  have hCr : (parse_list_file C).recorded = some (jsonNameOf C.link) := by
    unfold parse_list_file parse_list_file_body
    rw [hC, hCw]
  have hCl : (parse_list_file C).logs = [] := by
    unfold parse_list_file parse_list_file_body
    rw [hC, hCw]
  have hBfull : parse_list_file B = ⟨none, [], [errMsg B.link eB]⟩ := by
    unfold parse_list_file parse_list_file_body
    rcases hB with hB | ⟨hBw, ⟨rl, hBf⟩⟩
    · rw [hB]
    · rw [hBf, hBw]
  refine ⟨?_, by rw [hBfull]⟩
  show (_, _, _) = _
  rw [hBfull]
  simp [hAr, hAl, hCr, hCl]

/-- Witness for C8 at three concrete sources: B's fetch fails, A and C
succeed. -/
theorem C8_per_source_isolation_witness :
    runAll [c8RunA, c8RunB, c8RunC] =
      ([some (jsonNameOf c8RunA.link), none, some (jsonNameOf c8RunC.link)],
       (parse_list_file c8RunA).files ++ (parse_list_file c8RunC).files,
       [errMsg c8RunB.link "boom"]) ∧
    (parse_list_file c8RunB).files = [] := by
  exact C8_per_source_isolation c8RunA c8RunB c8RunC ([], []) ([], []) "boom"
    rfl rfl rfl rfl (Or.inl rfl)

/-! ## Order independence (claim C1) -/

/-- Sorting with `sLe` sends permuted lists to the same list. -/
theorem insertionSort_sLe_eq_of_perm {l l' : List String} (p : l.Perm l') :
    l.insertionSort sLe = l'.insertionSort sLe :=
  List.eq_of_perm_of_sorted
    ((List.perm_insertionSort sLe l).trans (p.trans (List.perm_insertionSort sLe l').symm))
    (List.sorted_insertionSort sLe l) (List.sorted_insertionSort sLe l')

/-- Normalization maps permuted row lists to permuted row lists. -/
theorem normalize_perm {rows rows' : List Row} (p : rows.Perm rows') :
    (normalize rows).Perm (normalize rows') :=
  (dedupF_perm ((p.filter keepNoHash).filter keepKnown)).map _

/-- Permuted normalized rows have identical sorted kind lists. -/
theorem kindsOf_eq_of_perm {n n' : List Row} (p : n.Perm n') :
    kindsOf n = kindsOf n' :=
  insertionSort_sLe_eq_of_perm (dedupF_perm (p.map Row.pattern))

/-- Permuted normalized rows have permuted groups, kind by kind. -/
theorem valuesOf_perm {n n' : List Row} (p : n.Perm n') (k : String) :
    (valuesOf n k).Perm (valuesOf n' k) :=
  (p.filter _).map _

/-- `sortDocs` is `sortDoc` mapped. -/
theorem sortDocs_eq_map : ∀ xs : List JVal, sortDocs xs = xs.map sortDoc := by
  intro xs
  induction xs with
  | nil => rfl
  | cons x xs ih => simp [sortDocs, ih]

/-- `orderedInsert` of a string scalar commutes with the `.str` embedding. -/
theorem orderedInsert_jle_str (a : String) :
    ∀ ws : List String,
      (ws.map JVal.str).orderedInsert jle (.str a) =
        (ws.orderedInsert sLe a).map JVal.str := by
  intro ws
  induction ws with
  | nil => rfl
  | cons b ws ih =>
    simp only [List.map_cons, List.orderedInsert]
    by_cases h : sLe a b
    · rw [if_pos (show jle (.str a) (.str b) from h), if_pos h]
      rfl
    · rw [if_neg (show ¬ jle (.str a) (.str b) from h), if_neg h]
      rw [List.map_cons, ih]

/-- Sorting an array of string scalars is string sorting. -/
theorem insertionSort_jle_strs :
    ∀ ws : List String,
      (ws.map JVal.str).insertionSort jle =
        (ws.insertionSort sLe).map JVal.str := by
  intro ws
  induction ws with
  | nil => rfl
  | cons a ws ih =>
    simp only [List.map_cons, List.insertionSort]
    rw [ih, ← orderedInsert_jle_str]

/-- `sort_dict` on an array of string scalars sorts the strings. -/
theorem sortDoc_strArr (ws : List String) :
    sortDoc (.arr (ws.map JVal.str)) = .arr ((ws.insertionSort sLe).map JVal.str) := by
  cases ws with
  | nil => rfl
  | cons a ws =>
    have hall : ((a :: ws).map JVal.str).all isObjB = false := rfl
    simp only [sortDoc, hall, Bool.false_eq_true, if_false, sortDocs_eq_map]
    have hmap : ((a :: ws).map JVal.str).map sortDoc = (a :: ws).map JVal.str := by
      rw [List.map_map]
      rfl
    rw [hmap, insertionSort_jle_strs]

/-- `sort_dict` on a one-key object holding a string array. -/
theorem sortDoc_strEntry (k : String) (ws : List String) :
    sortDoc (.obj [(k, .arr (ws.map JVal.str))]) =
      .obj [(k, .arr ((ws.insertionSort sLe).map JVal.str))] := by
  show JVal.obj (sortPairs [(k, sortDoc (.arr (ws.map JVal.str)))]) =
    JVal.obj [(k, .arr ((ws.insertionSort sLe).map JVal.str))]
  rw [sortDoc_strArr]
  rfl

/-- `sort_dict` of a flat entry sorts its (stripped) values. -/
theorem sortDoc_flatEntry (k : String) (vs : List String) :
    sortDoc (flatEntry k vs) =
      .obj [(k, .arr (((vs.map pyStrip).insertionSort sLe).map JVal.str))] := by
  unfold flatEntry
  exact sortDoc_strEntry k (vs.map pyStrip)

/-- The canonically sorted flat entries agree across a permutation of the
normalized rows. -/
theorem flats_sortDoc_eq {n n' : List Row} (p : n.Perm n') :
    (flatRulesOf n).map sortDoc = (flatRulesOf n').map sortDoc := by
  unfold flatRulesOf groupsOf
  rw [List.map_filterMap, List.map_filterMap,
    List.filterMap_map, List.filterMap_map, ← kindsOf_eq_of_perm p]
  refine List.filterMap_congr ?_
  intro k _
  by_cases hd : k = "domain"
  · simp [Function.comp, hd]
  · have hvals : ((valuesOf n k).map pyStrip).insertionSort sLe =
        ((valuesOf n' k).map pyStrip).insertionSort sLe :=
      insertionSort_sLe_eq_of_perm ((valuesOf_perm p k).map pyStrip)
    simp only [Function.comp, if_neg hd]
    rw [show Option.map sortDoc (some (flatEntry k (valuesOf n k))) =
        some (sortDoc (flatEntry k (valuesOf n k))) from rfl,
      show Option.map sortDoc (some (flatEntry k (valuesOf n' k))) =
        some (sortDoc (flatEntry k (valuesOf n' k))) from rfl]
    rw [sortDoc_flatEntry, sortDoc_flatEntry, hvals]

/-- The deduplicated `domain` sets agree up to permutation across a
permutation of the normalized rows. -/
theorem domainValsOf_perm {n n' : List Row} (p : n.Perm n') :
    (domainValsOf n).Perm (domainValsOf n') := by
  unfold domainValsOf
  rw [lookup_groupsOf_getD, lookup_groupsOf_getD]
  exact dedupF_perm ((valuesOf_perm p "domain").map pyStrip)

/-- Permutations preserve emptiness. -/
theorem perm_isEmpty_eq {α : Type} {l l' : List α} (p : l.Perm l') :
    l.isEmpty = l'.isEmpty := by
  have hlen := p.length_eq
  cases l with
  | nil => cases l' with
    | nil => rfl
    | cons x xs => simp at hlen
  | cons x xs => cases l' with
    | nil => simp at hlen
    | cons y ys => rfl

/-- The canonically sorted rules arrays agree across a permutation of the
raw rows (the logical rules are held fixed, as the claim states). -/
theorem rulesList_sortDoc_eq {rows rows' : List Row} (p : rows.Perm rows')
    (logic : List JVal) :
    (rulesListOf rows logic).map sortDoc = (rulesListOf rows' logic).map sortDoc := by
  unfold rulesListOf
  have pn := normalize_perm p
  have hdv := domainValsOf_perm pn
  have hempty : (domainValsOf (normalize rows)).isEmpty =
      (domainValsOf (normalize rows')).isEmpty := perm_isEmpty_eq hdv
  have hflats := flats_sortDoc_eq pn
  have hdome : sortDoc (.obj [("domain", .arr ((domainValsOf (normalize rows)).map JVal.str))]) =
      sortDoc (.obj [("domain", .arr ((domainValsOf (normalize rows')).map JVal.str))]) := by
    rw [sortDoc_strEntry, sortDoc_strEntry, insertionSort_sLe_eq_of_perm hdv]
  by_cases he : (domainValsOf (normalize rows)).isEmpty
  · rw [if_pos he, if_pos (hempty ▸ he)]
    rw [List.map_append, List.map_append, hflats]
  · rw [if_neg he, if_neg (hempty ▸ he)]
    rw [List.map_append, List.map_append, List.map_cons, List.map_cons,
      hflats, hdome]

/-- `sort_dict` never changes a value's constructor. -/
theorem isObjB_sortDoc : ∀ v : JVal, isObjB (sortDoc v) = isObjB v := by
  intro v
  cases v <;> rfl

/-- The all-dicts test agrees with its image under `sort_dict`. -/
theorem all_isObjB_map_sortDoc : ∀ l : List JVal,
    (l.map sortDoc).all isObjB = l.all isObjB := by
  intro l
  induction l with
  | nil => rfl
  | cons x xs ih => simp [isObjB_sortDoc, ih]

/-- Canonicalizing the whole document gives the same result on permuted
rows. -/
theorem sortDoc_aggregate_eq {rows rows' : List Row} (p : rows.Perm rows')
    (logic : List JVal) :
    sortDoc (aggregateDoc rows logic) = sortDoc (aggregateDoc rows' logic) := by
  have key : sortDoc (.arr (rulesListOf rows logic)) =
      sortDoc (.arr (rulesListOf rows' logic)) := by
    have hm := rulesList_sortDoc_eq p logic
    have hall : (rulesListOf rows logic).all isObjB =
        (rulesListOf rows' logic).all isObjB := by
      rw [← all_isObjB_map_sortDoc (rulesListOf rows logic), hm,
        all_isObjB_map_sortDoc]
    simp only [sortDoc, sortDocs_eq_map, hm, hall]
  show JVal.obj (sortPairs [("version", JVal.num 1),
      ("rules", sortDoc (.arr (rulesListOf rows logic)))]) = _
  rw [key]
  rfl

/-- C1: running normalization, aggregation, canonicalization and JSON
emission on any permutation of a source's raw rows (with the logical rules
held fixed) produces byte-identical serialized output. -/
theorem C1_order_independence (rows rows' : List Row) (logic : List JVal)
    (h : rows.Perm rows') :
    emitJson (aggregateDoc rows logic) = emitJson (aggregateDoc rows' logic) := by
  unfold emitJson
  rw [sortDoc_aggregate_eq h logic]

/-- Witness for C1 at a two-row swap. -/
theorem C1_order_independence_witness :
    emitJson (aggregateDoc [(⟨"DOMAIN", "a.com", [none]⟩ : Row), ⟨"GEOIP", "CN", [none]⟩] []) =
      emitJson (aggregateDoc [(⟨"GEOIP", "CN", [none]⟩ : Row), ⟨"DOMAIN", "a.com", [none]⟩] []) :=
  C1_order_independence
    [(⟨"DOMAIN", "a.com", [none]⟩ : Row), ⟨"GEOIP", "CN", [none]⟩]
    [(⟨"GEOIP", "CN", [none]⟩ : Row), ⟨"DOMAIN", "a.com", [none]⟩] []
    (List.Perm.swap (⟨"GEOIP", "CN", [none]⟩ : Row) (⟨"DOMAIN", "a.com", [none]⟩ : Row) [])

end ToosBox
